import Mathlib

/-!
Verification of the `onui` agent control plane.

Shallow embedding of the Rust sources:
- `src/lua.rs`      : script runtime (timeout hook, error wrapping, execution result)
- `src/agent.rs`    : pending-lua registry, approval parsing, batch completion, rendering
- `src/io/msg.rs`   : command decoding (`Input::from_raw`, `CMD_NAMES`)
- `src/io/cli.rs`   : SIGINT counter / Ctrl-C signal task
- `src/llm/openai.rs`: streaming tool-call reassembly and delivery

Machine integers of the source (`u64` timeouts, counters) are modelled as `Nat`
(no overflow is reachable in the modelled operations).  The `HashMap` used for
the wait list (`std::collections::HashMap`) guarantees no iteration order, so
its drain order is passed in explicitly as a `hashOrder` key list; statements
quantify over all orders that are permutations of the key set.
-/

namespace Onui

/-! ## String primitives

Rust's `str` operations are modelled by structural recursion over the
character list of a `String`, so that every definition evaluates by kernel
reduction.  Whitespace is the ASCII whitespace set (space, tab, CR, LF), which
agrees with Rust's `char::is_whitespace` on all inputs appearing in the
theorems below; case mapping is ASCII, as in Rust's `to_ascii_lowercase`. -/

def wsChar (c : Char) : Bool :=
  c == ' ' || c == '\t' || c == '\r' || c == '\n'

/-- Rust `str::trim`: strip leading and trailing whitespace. -/
def strTrim (s : String) : String :=
  ⟨(((s.data.dropWhile wsChar).reverse.dropWhile wsChar).reverse : List Char)⟩

/-- ASCII lowercase of one character (`u8::to_ascii_lowercase`). -/
def asciiToLower (c : Char) : Char :=
  if 65 ≤ c.toNat && c.toNat ≤ 90 then Char.ofNat (c.toNat + 32) else c

/-- ASCII uppercase of one character. -/
def asciiToUpper (c : Char) : Char :=
  if 97 ≤ c.toNat && c.toNat ≤ 122 then Char.ofNat (c.toNat - 32) else c

/-- Rust `str::to_ascii_lowercase` (also used for `to_lowercase`, which agrees
on ASCII input). -/
def strToLower (s : String) : String :=
  ⟨s.data.map asciiToLower⟩

def strToUpper (s : String) : String :=
  ⟨s.data.map asciiToUpper⟩

/-- Helper for `str::split_whitespace`: split a character list into maximal
runs of non-whitespace characters, dropping all whitespace. -/
def splitWsAux : List Char → List Char → List (List Char)
  | [], cur => if cur.isEmpty then [] else [cur.reverse]
  | c :: cs, cur =>
    if wsChar c then
      if cur.isEmpty then splitWsAux cs [] else cur.reverse :: splitWsAux cs []
    else splitWsAux cs (c :: cur)

/-- Rust `str::split_whitespace`: whitespace-separated tokens, no empties. -/
def splitWhitespaceTokens (s : String) : List String :=
  (splitWsAux s.data []).map fun l => ⟨l⟩

/-- `str::starts_with` on a single character. -/
def strStartsWithChar (s : String) (c : Char) : Bool :=
  match s.data with
  | [] => false
  | c' :: _ => c' == c

/-- Drop the first `n` characters of a string. -/
def strDrop (s : String) (n : Nat) : String :=
  ⟨s.data.drop n⟩

def strTakeWhile (p : Char → Bool) (s : String) : String :=
  ⟨s.data.takeWhile p⟩

def strDropWhile (p : Char → Bool) (s : String) : String :=
  ⟨s.data.dropWhile p⟩

/-- `Vec::join(sep)` / `String.intercalate`. -/
def joinWith (sep : String) : List String → String
  | [] => ""
  | [x] => x
  | x :: xs => x ++ sep ++ joinWith sep xs

/-- Whether `pre` is a prefix of `s` (Rust `str::starts_with`). -/
def strIsPrefixOf (pre s : String) : Bool :=
  pre.data.isPrefixOf s.data

/-! ## Script runtime (`src/lua.rs`) -/

/-- Result of executing Lua code (`LuaExecution`, lua.rs 10-14). -/
structure LuaExecution where
  stdout : String
  error : Option String
  returns : List String
deriving Repr, DecidableEq

/-- lua.rs 124-141: a timeout hook is installed iff `timeout_sec` is `Some`;
with `None` no hook (and hence no budget) is set up at all. -/
def hookInstalled (timeoutSec : Option Nat) : Bool :=
  timeoutSec.isSome

/-- lua.rs 129: when installed, the hook fires every 10,000 VM instructions. -/
def hookEveryNthInstruction : Nat := 10000

/-- lua.rs 124-126: the wall-clock budget is exactly the given number of
seconds; there is no default substituted for an absent timeout. -/
def timeoutBudget (timeoutSec : Option Nat) : Option Nat :=
  timeoutSec

/-- The error message raised by the timeout hook (lua.rs 132-134). -/
def luaTimeoutMsg : String := "Lua execution timed out"

/-- lua.rs 130-138: body of the installed hook, as a function of the elapsed
time and the budget (both in the same time unit): it aborts with a runtime
error once `elapsed > budget`, else lets the VM continue. -/
def hookCheck (elapsed budget : Nat) : Except String Unit :=
  if budget < elapsed then .error luaTimeoutMsg else .ok ()

/-- lua.rs 143-169: packaging of the evaluation outcome.  The evaluation of the
script itself (`lua.load(script).eval()`) is external to the embedding and is
given as `evalResult`: stringified return values on success, the displayed
`mlua` error on failure.  A failed evaluation is wrapped as
`"Lua execution failed: {err}"` in the `error` field (lua.rs 164-168). -/
def executeScriptEval (evalResult : Except String (List String)) (stdout : String) :
    LuaExecution :=
  match evalResult with
  | .ok values => { stdout := stdout, error := none, returns := values }
  | .error err => { stdout := stdout, error := some ("Lua execution failed: " ++ err), returns := [] }

/-! ## Agent registry and batches (`src/agent.rs`) -/

/-- `PendingLua` (agent.rs 11-15): a pending tool call records only its id and
code plus the operator's decision; no timeout field exists. -/
structure PendingLua where
  id : String
  code : String
  approved : Option Bool
deriving Repr, DecidableEq

/-- `LuaResult` handed to the LLM client (llm/traits.rs). -/
structure LuaResult where
  id : String
  approved : Bool
  output : String
deriving Repr, DecidableEq

/-- A tool call as delivered by the adapter
(`on_lua_call(id, code, timeout_sec)`, llm/traits.rs 19, llm/openai.rs 427-435). -/
structure ToolCall where
  id : String
  code : String
  timeoutSec : Option Nat
deriving Repr, DecidableEq

/-- `AgentHandler::on_lua_call` (agent.rs 76-98): `entry(id).or_insert(...)` on
the wait list — inserts a fresh undecided entry unless the id is already
present.  The wait list is kept in insertion order for bookkeeping; the map
itself guarantees no order (see `drainBatch`). -/
def onLuaCall (wl : List PendingLua) (id code : String) : List PendingLua :=
  if wl.any (·.id == id) then wl
  else wl ++ [{ id := id, code := code, approved := none }]

/-- The handler inserts only `id` and `code`; the tool call's `timeoutSec` has
no place in `PendingLua` and is dropped. -/
def onLuaCallToolCall (wl : List PendingLua) (tc : ToolCall) : List PendingLua :=
  onLuaCall wl tc.id tc.code

/-- `ApprovalTarget` (agent.rs 51-54). -/
inductive ApprovalTarget where
  | all
  | one (id : String)
deriving Repr, DecidableEq

/-- `parse_decision` (agent.rs 472-478). -/
def parseDecision (token : String) : Option Bool :=
  match strToLower token with
  | "y" => some true
  | "yes" => some true
  | "approve" => some true
  | "ok" => some true
  | "n" => some false
  | "no" => some false
  | "reject" => some false
  | _ => none

/-- One of the two symmetric multi-token branches of `parse_lua_approval`
(agent.rs 344-359): given the parsed decision of one token and the other token,
recognize `all` or a pending id. -/
def approvalPairBranch (ids : List String) (dOpt : Option Bool) (other : String) :
    Option (Bool × ApprovalTarget) :=
  match dOpt with
  | some d =>
    if other == "all" then some (d, .all)
    else if ids.any (· == other) then some (d, .one other)
    else none
  | none => none

/-- Token-level core of `Agent::parse_lua_approval` (agent.rs 326-360): the
early `ids.is_empty()` return, the one-token rules, and—for two or more
tokens—the two branches inspecting only `tokens[0]` and `tokens[1]`. -/
def parseLuaApprovalTokens (ids : List String) (tokens : List String) :
    Option (Bool × ApprovalTarget) :=
  if ids = [] then none
  else
    match tokens with
    | [] => none
    | [t0] =>
      match parseDecision t0 with
      | some d => some (d, .all)
      | none => if ids.any (· == t0) then some (true, .one t0) else none
    | t0 :: t1 :: _ =>
      (approvalPairBranch ids (parseDecision t0) t1).orElse fun _ =>
        approvalPairBranch ids (parseDecision t1) t0

/-- `Agent::parse_lua_approval` (agent.rs 320-368) at string level.  The second
component lists the system messages emitted: the "not recognized" message is
produced only on the final fall-through, never on the early returns for empty
input or an empty pending set. -/
def parseLuaApproval (ids : List String) (input : String) :
    Option (Bool × ApprovalTarget) × List String :=
  if strTrim input = "" then (none, [])
  else if ids = [] then (none, [])
  else if splitWhitespaceTokens (strTrim input) = [] then (none, [])
  else
    match parseLuaApprovalTokens ids (splitWhitespaceTokens (strTrim input)) with
    | some r => (some r, [])
    | none => (none, ["Lua approval input not recognized."])

/-- `ApprovalTarget::All` arm of `apply_lua_approval` (agent.rs 375-379):
every entry—already decided or not—gets `approved = Some(decision)`. -/
def decideAll (wl : List PendingLua) (decision : Bool) : List PendingLua :=
  wl.map fun e => { e with approved := some decision }

/-- `ApprovalTarget::One` arm (agent.rs 380-386): overwrite the matching
entry's decision; ids are unique in the wait list, so at most one matches. -/
def decideOne (wl : List PendingLua) (decision : Bool) (id : String) : List PendingLua :=
  wl.map fun e => if e.id == id then { e with approved := some decision } else e

/-- agent.rs 389-393: all decided iff the wait list is non-empty and every
entry carries a decision. -/
def allDecided (wl : List PendingLua) : Bool :=
  !wl.isEmpty && wl.all (·.approved.isSome)

/-- agent.rs 396: `lua_wait_list.drain()` — the `HashMap` yields its entries in
its internal (unspecified) order, given here as the key list `hashOrder`. -/
def drainBatch (hashOrder : List String) (wl : List PendingLua) : List PendingLua :=
  hashOrder.filterMap fun k => wl.find? (·.id == k)

/-- `Agent::apply_lua_approval` (agent.rs 370-405): apply the decision to the
target, then, if every entry is decided, drain the wait list and hand the
batch over (second component). -/
def applyLuaApproval (hashOrder : List String) (wl : List PendingLua)
    (decision : Bool) (target : ApprovalTarget) :
    List PendingLua × Option (List PendingLua) :=
  match target with
  | .all =>
    let wl' := decideAll wl decision
    if allDecided wl' then ([], some (drainBatch hashOrder wl')) else (wl', none)
  | .one id =>
    if wl.any (·.id == id) then
      let wl' := decideOne wl decision id
      if allDecided wl' then ([], some (drainBatch hashOrder wl')) else (wl', none)
    else (wl, none)

/-- The fixed rejection string (agent.rs 421). -/
def rejectedMsg : String := "Lua execution rejected by user."

/-- `render_tool_output` (agent.rs 487-498). -/
def renderToolOutput (execution : LuaExecution) : String :=
  let items := [strTrim execution.stdout]
  let items :=
    if execution.returns.isEmpty then items
    else items ++ execution.returns.enum.map fun p =>
      strTrim ("** Ret[" ++ toString (p.1 + 1) ++ "]: " ++ p.2)
  let items :=
    match execution.error with
    | some e => items ++ [strTrim ("** Err: " ++ e)]
    | none => items
  strTrim (joinWith "\n" items)

/-- `Agent::finish_lua_batch` (agent.rs 407-439).  The first component records
the `execute_script` invocations as `(code, timeout)` pairs — the source always
passes `None` for the timeout (agent.rs 417); the second lists the
`Output::LuaResult` pairs; the third the `LuaResult`s sent to the LLM. -/
def finishLuaBatch (runtime : String → Option Nat → LuaExecution) :
    List PendingLua →
    List (String × Option Nat) × List (String × String) × List LuaResult
  | [] => ([], [], [])
  | item :: rest =>
    let approvedOutput :=
      if item.approved == some true then
        (true, [(item.code, (none : Option Nat))],
          renderToolOutput (runtime item.code none))
      else
        (false, [], rejectedMsg)
    let tail := finishLuaBatch runtime rest
    (approvedOutput.2.1 ++ tail.1,
     (item.id, approvedOutput.2.2) :: tail.2.1,
     { id := item.id, approved := approvedOutput.1, output := approvedOutput.2.2 } :: tail.2.2)

/-! ## Agent input dispatch (`Agent::handle_input`, agent.rs 212-245) -/

/-- `Status` (llm/traits.rs 6-10). -/
inductive Status where
  | idle
  | waitForLuaResult
  | generating
deriving Repr, DecidableEq

/-- Effect of handling one `Input::Text` line. -/
inductive TextEffect where
  | applyApproval (decision : Bool) (target : ApprovalTarget)
  | dropped
  | sendUser (line : String)
deriving Repr, DecidableEq

/-- The `Input::Text` arm of `Agent::handle_input` (agent.rs 224-241): first try
the approval parser; if it does not consume the line, drop it while the LLM is
generating; if tools are pending, run the parser again (for its message) and
stop; otherwise forward the line to the LLM iff the status is `Idle`.
The second component lists the system messages emitted. -/
def handleTextInput (status : Status) (ids : List String) (line : String) :
    TextEffect × List String :=
  match parseLuaApproval ids line with
  | (some (d, tgt), msgs) => (.applyApproval d tgt, msgs)
  | (none, msgs) =>
    if status = .generating then (.dropped, msgs)
    else if ids ≠ [] then
      (.dropped, msgs ++ (parseLuaApproval ids line).2)
    else if status = .idle then (.sendUser line, msgs)
    else (.dropped, msgs)

/-! ## Signal handling (`Agent::handle_signal`, agent.rs 191-210) -/

/-- `Signal` (spec §3; used by agent.rs and io/cli.rs). -/
inductive Signal where
  | cancel
  | exit
deriving Repr, DecidableEq

/-- `Agent::handle_signal` returns `Ok(true)` (terminate the main loop) exactly
for `Signal::Exit` (agent.rs 193-209). -/
def handleSignalBreaks (s : Signal) : Bool :=
  match s with
  | .exit => true
  | .cancel => false

/-! ## CLI SIGINT counter (`CliIO::open`, src/io/cli.rs 51-107)

Two spawned tasks share the atomic `sigint_cnt`: the stdin task stores 0 for
every line it reads (cli.rs 60, before the empty-line check at 61-64), and the
Ctrl-C task increments it and emits `Exit` when the new count reaches 2, else
`Cancel`, breaking out of its loop after an `Exit` (cli.rs 94-105).  The
interleaving is modelled as a single event trace. -/

inductive CliEvent where
  | inputLine (s : String)
  | ctrlC
deriving Repr, DecidableEq

structure CliState where
  sigintCnt : Nat
  ctrlTaskStopped : Bool
deriving Repr, DecidableEq

def initialCliState : CliState := { sigintCnt := 0, ctrlTaskStopped := false }

/-- One event step of the two tasks of cli.rs: any read line (empty or not)
stores 0 into the counter; a Ctrl-C press increments it and emits a signal. -/
def cliStep (st : CliState) (ev : CliEvent) : CliState × List Signal :=
  match ev with
  | .inputLine _ => ({ st with sigintCnt := 0 }, [])
  | .ctrlC =>
    if st.ctrlTaskStopped then (st, [])
    else
      let cnt := st.sigintCnt + 1
      let sig := if 2 ≤ cnt then Signal.exit else Signal.cancel
      ({ sigintCnt := cnt, ctrlTaskStopped := 2 ≤ cnt }, [sig])

def cliRunFrom (st : CliState) : List CliEvent → CliState × List Signal
  | [] => (st, [])
  | ev :: rest =>
    let step := cliStep st ev
    let tail := cliRunFrom step.1 rest
    (tail.1, step.2 ++ tail.2)

def cliRun (evs : List CliEvent) : CliState × List Signal :=
  cliRunFrom initialCliState evs

/-- The signals emitted by the Ctrl-C task along a trace. -/
def cliSignals (evs : List CliEvent) : List Signal := (cliRun evs).2

/-! ## Message codec (`src/io/msg.rs`) -/

/-- `Command` (msg.rs 1-13). -/
inductive Command where
  | exit
  | cancel
  | help
  | status
  | resetVM
  | compact
  | approve
  | reject
  | approveAlways
deriving Repr, DecidableEq

/-- `CMD_NAMES` (msg.rs 15-31): the complete name → command table. -/
def cmdNames : List (String × Command) :=
  [("exit", .exit), ("quit", .exit), ("q", .exit),
   ("cancel", .cancel), ("c", .cancel), ("stop", .cancel),
   ("help", .help),
   ("status", .status),
   ("resetvm", .resetVM),
   ("compact", .compact),
   ("approve", .approve), ("a", .approve),
   ("reject", .reject), ("r", .reject),
   ("always", .approveAlways)]

/-- `Command::from_name` (msg.rs 34-36): lowercase, then look up.
(Rust uses Unicode `to_lowercase`; `String.toLower` is ASCII-lowering, which
agrees on every name in the table and on all ASCII input.) -/
def commandFromName (name : String) : Option Command :=
  (cmdNames.find? (·.1 == strToLower name)).map (·.2)

/-- `Input` (msg.rs 42-49). -/
inductive Input where
  | text (s : String)
  | command (cmd : Command) (arg : String) (details : String)
deriving Repr, DecidableEq

/-- `Input::from_raw` (msg.rs 52-74): trim; strip a leading `/`; trim again;
first whitespace-limited token is the name; on a recognized name, the rest of
the first line (trimmed) is `arg` and everything after the first newline
(trimmed) is `details`; otherwise the raw line is plain text. -/
def inputFromRaw (original : String) : Input :=
  let trimmed := strTrim original
  if strStartsWithChar trimmed '/' then
    let stripped := strTrim (strDrop trimmed 1)
    if stripped ≠ "" then
      let nameRaw := strTakeWhile (fun c => !wsChar c) stripped
      let afterName := strDropWhile (fun c => !wsChar c) stripped
      let rest := if afterName = "" then "" else strDrop afterName 1
      match commandFromName nameRaw with
      | some cmd =>
        let argPart := strTakeWhile (· != '\n') rest
        let afterArg := strDropWhile (· != '\n') rest
        let detailsPart := if afterArg = "" then "" else strDrop afterArg 1
        .command cmd (strTrim argPart) (strTrim detailsPart)
      | none => .text original
    else .text original
  else .text original

/-- Modelled from the spec: the codec's `render` ("render producing a canonical
`/<name>` string", spec §8) does not appear under src/; per spec §4.1 the
canonical names are exit, cancel, help, status, reset-vm (alias resetvm),
compact, approve, reject, always. -/
def renderCommand : Command → String
  | .exit => "/exit"
  | .cancel => "/cancel"
  | .help => "/help"
  | .status => "/status"
  | .resetVM => "/reset-vm"
  | .compact => "/compact"
  | .approve => "/approve"
  | .reject => "/reject"
  | .approveAlways => "/always"

/-! ## Streaming tool-call reassembly (`src/llm/openai.rs` 389-436) -/

/-- `OpenAIFunctionDelta` (openai.rs 190-196). -/
structure OpenAIFunctionDelta where
  name : Option String
  arguments : Option String
deriving Repr, DecidableEq

/-- `OpenAIToolCallDelta` (openai.rs 178-188). -/
structure OpenAIToolCallDelta where
  index : Nat
  id : Option String
  kind : Option String
  function : Option OpenAIFunctionDelta
deriving Repr, DecidableEq

/-- `OpenAIFunction` (openai.rs 88-92). -/
structure OpenAIFunction where
  name : String
  arguments : String
deriving Repr, DecidableEq

/-- `OpenAIToolCall` (openai.rs 94-100). -/
structure OpenAIToolCall where
  id : String
  kind : String
  function : OpenAIFunction
deriving Repr, DecidableEq

/-- The empty partial call pushed while growing the vector (openai.rs 393-402). -/
def emptyToolCall : OpenAIToolCall :=
  { id := "", kind := "", function := { name := "", arguments := "" } }

/-- openai.rs 392-402: grow the vector with empty calls until `index` is valid. -/
def padCalls (calls : List OpenAIToolCall) (index : Nat) : List OpenAIToolCall :=
  calls ++ List.replicate (index + 1 - calls.length) emptyToolCall

/-- openai.rs 404-421: apply one fragment to the accumulated call at its index:
`id`, `kind` and the function `name` are *replaced* when present in the
fragment, while the function `arguments` string is appended to. -/
def applyDeltaToCall (c : OpenAIToolCall) (d : OpenAIToolCallDelta) : OpenAIToolCall :=
  let c := match d.id with
    | some i => { c with id := i }
    | none => c
  let c := match d.kind with
    | some k => { c with kind := k }
    | none => c
  match d.function with
  | some f =>
    let c := match f.name with
      | some n => { c with function := { c.function with name := n } }
      | none => c
    match f.arguments with
    | some a => { c with function := { c.function with arguments := c.function.arguments ++ a } }
    | none => c
  | none => c

/-- One `tool_call_delta` iteration (openai.rs 389-422). -/
def accumulateDelta (calls : List OpenAIToolCall) (d : OpenAIToolCallDelta) :
    List OpenAIToolCall :=
  let padded := padCalls calls d.index
  padded.set d.index (applyDeltaToCall (padded.getD d.index emptyToolCall) d)

/-- The whole accumulation over the fragments of a stream, starting from the
empty vector (openai.rs 342, 389-422). -/
def accumulateToolCalls (deltas : List OpenAIToolCallDelta) : List OpenAIToolCall :=
  deltas.foldl accumulateDelta []

/-- openai.rs 427-436: after the stream ends, each accumulated call whose
arguments contain a string `"code"` field is delivered once to the handler as
`on_lua_call(id, code, timeout_sec)`.  JSON parsing of the arguments string is
external; it is passed in as `getCode` / `getTimeout`. -/
def finalizeToolCalls (getCode : String → Option String)
    (getTimeout : String → Option Nat) (calls : List OpenAIToolCall) :
    List (String × String × Option Nat) :=
  calls.filterMap fun c =>
    (getCode c.function.arguments).map fun code =>
      (c.id, code, getTimeout c.function.arguments)

/-! ## Spec-side models, for comparison with the source embeddings -/

/-- The approval decision vocabulary of spec §4.6.1, approving side. -/
def decisionWordsApprove : List String := ["y", "yes", "approve", "ok"]

/-- The approval decision vocabulary of spec §4.6.1, rejecting side. -/
def decisionWordsReject : List String := ["n", "no", "reject"]

/-- Spec §4.6.1: membership of a token in `D`, case-insensitively. -/
def decisionOf (t : String) : Option Bool :=
  if strToLower t ∈ decisionWordsApprove then some true
  else if strToLower t ∈ decisionWordsReject then some false
  else none

/-- Spec §4.6.1, two-token rule: one token in `D` paired with `all` gives
decision-all, with a pending id gives decision-one. -/
def grammarPair (ids : List String) (a b : String) : Option (Bool × ApprovalTarget) :=
  (decisionOf a).bind fun d =>
    if b = "all" then some (d, .all)
    else if b ∈ ids then some (d, .one b)
    else none

/-- The approval-utterance grammar exactly as the spec states it (§4.6.1):
a lone decision token decides all pending entries; a lone pending id approves
that id; with two or more tokens the first two are matched order-insensitively
as decision + (`all` | pending id); everything else is unrecognized. -/
def approvalGrammarSpec (ids : List String) (tokens : List String) :
    Option (Bool × ApprovalTarget) :=
  match tokens with
  | [] => none
  | [t] =>
    match decisionOf t with
    | some d => some (d, .all)
    | none => if t ∈ ids then some (true, .one t) else none
  | a :: b :: _ => (grammarPair ids a b).orElse fun _ => grammarPair ids b a

/-- The delta-application rule as the claim states it: the `id`, kind, function
name *and* arguments of a partial call are all incrementally concatenated
across fragments. -/
def applyDeltaToCallClaimed (c : OpenAIToolCall) (d : OpenAIToolCallDelta) :
    OpenAIToolCall :=
  { id := c.id ++ d.id.getD ""
    kind := c.kind ++ d.kind.getD ""
    function :=
      { name := c.function.name ++ ((d.function.bind (·.name)).getD "")
        arguments := c.function.arguments ++ ((d.function.bind (·.arguments)).getD "") } }

/-- The accumulation the claim describes, with every field concatenated. -/
def accumulateDeltaClaimed (calls : List OpenAIToolCall) (d : OpenAIToolCallDelta) :
    List OpenAIToolCall :=
  let padded := padCalls calls d.index
  padded.set d.index (applyDeltaToCallClaimed (padded.getD d.index emptyToolCall) d)

/-- Whole-stream accumulation under the claim's concatenate-everything rule. -/
def accumulateToolCallsClaimed (deltas : List OpenAIToolCallDelta) : List OpenAIToolCall :=
  deltas.foldl accumulateDeltaClaimed []

/-- The SIGINT counter rule as the claim states it: the consecutive-press
counter is reset to zero exactly on each *non-empty* input line. -/
def cliStepClaimed (st : CliState) (ev : CliEvent) : CliState × List Signal :=
  match ev with
  | .inputLine s =>
    if strTrim s ≠ "" then ({ st with sigintCnt := 0 }, []) else (st, [])
  | .ctrlC =>
    if st.ctrlTaskStopped then (st, [])
    else
      let cnt := st.sigintCnt + 1
      let sig := if 2 ≤ cnt then Signal.exit else Signal.cancel
      ({ sigintCnt := cnt, ctrlTaskStopped := 2 ≤ cnt }, [sig])

def cliRunFromClaimed (st : CliState) : List CliEvent → CliState × List Signal
  | [] => (st, [])
  | ev :: rest =>
    let step := cliStepClaimed st ev
    let tail := cliRunFromClaimed step.1 rest
    (tail.1, step.2 ++ tail.2)

/-- Signals of a trace under the claim's reset-on-non-empty-lines-only rule. -/
def cliSignalsClaimed (evs : List CliEvent) : List Signal :=
  (cliRunFromClaimed initialCliState evs).2

/-! ## Derived definitions used in statements -/

/-- The output `finish_lua_batch` computes for a single entry (agent.rs
413-422): rendered execution result when approved, the fixed rejection string
otherwise. -/
def finishOutput (runtime : String → Option Nat → LuaExecution) (e : PendingLua) : String :=
  if e.approved == some true then renderToolOutput (runtime e.code none) else rejectedMsg

/-- The wait list of spec scenario S4: tool calls `t1` then `t2` inserted via
the handler, in that order. -/
def s4WaitList : List PendingLua :=
  onLuaCall (onLuaCall [] "t1" "c1") "t2" "c2"

/-- A stub runtime for concrete evaluations. -/
def stubRuntime : String → Option Nat → LuaExecution :=
  fun _ _ => { stdout := "", error := none, returns := [] }

/-! ## Helper lemmas -/

theorem strAppendEmpty (s : String) : s ++ "" = s := by
  cases s with
  | mk data =>
    show String.mk (data ++ []) = String.mk data
    rw [List.append_nil]

theorem listAnyBeqMem (l : List String) (t : String) :
    (l.any (· == t)) = decide (t ∈ l) := by
  induction l with
  | nil => simp
  | cons c cs ih =>
    simp only [List.any_cons, ih, List.mem_cons]
    by_cases h : c = t
    · simp [h]
    · have h1 : (c == t) = false := beq_eq_false_iff_ne.mpr h
      have h3 : (t = c ∨ t ∈ cs) ↔ t ∈ cs := or_iff_right fun hh => h hh.symm
      rw [h1, decide_eq_decide.mpr h3, Bool.false_or]

theorem parseDecisionEqDecisionOf (t : String) : parseDecision t = decisionOf t := by
  unfold parseDecision decisionOf decisionWordsApprove decisionWordsReject
  generalize strToLower t = s
  split <;> simp_all

theorem finishLuaBatchEq (runtime : String → Option Nat → LuaExecution)
    (pending : List PendingLua) :
    finishLuaBatch runtime pending =
      ((pending.filter (fun e => e.approved == some true)).map
          (fun e => (e.code, (none : Option Nat))),
        pending.map (fun e => (e.id, finishOutput runtime e)),
        pending.map (fun e =>
          { id := e.id, approved := (e.approved == some true),
            output := finishOutput runtime e })) := by
  induction pending with
  | nil => rfl
  | cons item rest ih =>
    by_cases h : item.approved = some true <;>
      simp [finishLuaBatch, finishOutput, h, ih]

theorem filterMapLengthCountP {α β : Type} (f : α → Option β) (l : List α) :
    (l.filterMap f).length = l.countP (fun a => (f a).isSome) := by
  induction l with
  | nil => rfl
  | cons a rest ih =>
    cases h : f a <;> simp [List.filterMap_cons, List.countP_cons, h, ih]

theorem filterMapFindSelf (wl : List PendingLua) (hnd : (wl.map (·.id)).Nodup) :
    (wl.map (·.id)).filterMap (fun k => wl.find? (·.id == k)) = wl := by
  induction wl with
  | nil => rfl
  | cons e rest ih =>
    rw [List.map_cons, List.nodup_cons] at hnd
    obtain ⟨hnotin, hndrest⟩ := hnd
    have hfinde : (e :: rest).find? (·.id == e.id) = some e := by
      simp [List.find?_cons]
    have hcongr :
        (rest.map (·.id)).filterMap (fun k => (e :: rest).find? (·.id == k)) =
          (rest.map (·.id)).filterMap (fun k => rest.find? (·.id == k)) := by
      apply List.filterMap_congr
      intro k hk
      have hne : (e.id == k) = false := by
        simp only [beq_eq_false_iff_ne]
        intro hEq
        exact hnotin (hEq ▸ hk)
      simp [List.find?_cons, hne]
    simp only [List.map_cons, List.filterMap_cons, hfinde, hcongr, ih hndrest]

theorem mapIdDecideAll (wl : List PendingLua) (d : Bool) :
    (decideAll wl d).map (·.id) = wl.map (·.id) := by
  unfold decideAll
  rw [List.map_map]
  rfl

theorem drainBatchPerm (hashOrder : List String) (wl : List PendingLua)
    (hnd : (wl.map (·.id)).Nodup) (hperm : hashOrder.Perm (wl.map (·.id))) :
    (drainBatch hashOrder wl).Perm wl := by
  have h := hperm.filterMap (fun k => wl.find? (·.id == k))
  rw [filterMapFindSelf wl hnd] at h
  exact h

theorem decideAllApproved (wl : List PendingLua) (d : Bool) (e : PendingLua)
    (he : e ∈ decideAll wl d) : e.approved = some d := by
  obtain ⟨x, _, hx⟩ := List.mem_map.mp he
  rw [← hx]

theorem allDecidedDecideAll (wl : List PendingLua) (d : Bool) (hne : wl ≠ []) :
    allDecided (decideAll wl d) = true := by
  unfold allDecided decideAll
  cases wl with
  | nil => exact absurd rfl hne
  | cons e rest => simp [List.all_eq_true]

theorem applyAllEq (hashOrder : List String) (wl : List PendingLua) (d : Bool) :
    applyLuaApproval hashOrder wl d .all =
      if allDecided (decideAll wl d) then
        ([], some (drainBatch hashOrder (decideAll wl d)))
      else (decideAll wl d, none) := rfl

theorem approvalPairBranchEq (ids : List String) (a b : String) :
    approvalPairBranch ids (parseDecision a) b = grammarPair ids a b := by
  rw [parseDecisionEqDecisionOf]
  unfold approvalPairBranch grammarPair
  cases decisionOf a with
  | none => rfl
  | some d =>
    simp only [Option.some_bind]
    by_cases hb : b = "all"
    · rw [hb]
      rfl
    · have hb' : (b == "all") = false := beq_eq_false_iff_ne.mpr hb
      rw [hb', listAnyBeqMem]
      by_cases hm : b ∈ ids <;> simp [hb, hm]

/-! ## Claim theorems -/

/-- C5, counterexample: the claim asserts that with an absent timeout the
runtime installs a timeout hook with a default 10-second budget; in
`LuaVM::execute_script` (lua.rs 124-141) a `None` timeout installs no hook and
sets no budget at all, so the claimed conjunction is false. -/
theorem c5_counterexample :
    ¬ (hookInstalled none = true ∧ timeoutBudget none = some 10) := by
  decide

/-- C5, amended: with an absent timeout no hook is installed and no time budget
exists (the script runs unbounded); with an explicit timeout of `s` seconds the
hook is installed with budget exactly `s` (no default is ever substituted), and
the hook aborts with the runtime error "Lua execution timed out" precisely when
the elapsed time exceeds the budget.  Moreover `finish_lua_batch` always passes
`None` to the runtime, so batch executions never run under any budget. -/
theorem c5_no_default_timeout :
    hookInstalled none = false ∧ timeoutBudget none = none ∧
    (∀ s : Nat, hookInstalled (some s) = true ∧ timeoutBudget (some s) = some s) ∧
    (∀ elapsed budget : Nat,
      (hookCheck elapsed budget = .error luaTimeoutMsg ↔ budget < elapsed)) ∧
    (∀ runtime pending inv, inv ∈ (finishLuaBatch runtime pending).1 →
      inv.2 = (none : Option Nat)) := by
  refine ⟨rfl, rfl, fun s => ⟨rfl, rfl⟩, ?_, ?_⟩
  · intro elapsed budget
    unfold hookCheck
    split <;> simp_all
  · intro runtime pending inv hinv
    rw [finishLuaBatchEq] at hinv
    obtain ⟨e, _, he⟩ := List.mem_map.mp hinv
    rw [← he]

/-- C5, witness for the amended theorem at a concrete input. -/
theorem c5_no_default_timeout_witness :
    ("x=1", (none : Option Nat)).2 = (none : Option Nat) :=
  c5_no_default_timeout.2.2.2.2 stubRuntime [⟨"t1", "x=1", some true⟩]
    ("x=1", none) (by decide)

/-- C6, counterexample: the hook raises the message "Lua execution timed out",
but `execute_script` wraps every evaluation error as
`"Lua execution failed: {err}"` (lua.rs 164-168), so even under the most
charitable reading (the library displaying the bare hook message; mlua actually
prepends "runtime error: " as well) the rendered body after the "** Err: "
marker begins "Lua execution failed: ", not "Lua execution timed out". -/
theorem c6_counterexample :
    renderToolOutput (executeScriptEval (.error luaTimeoutMsg) "") =
      "** Err: Lua execution failed: Lua execution timed out" ∧
    strIsPrefixOf luaTimeoutMsg
      (strDrop (renderToolOutput (executeScriptEval (.error luaTimeoutMsg) "")) 8) = false := by
  decide

/-- C6, amended: a timeout-aborted execution renders with the error body
"Lua execution failed: <err>" after the "** Err: " marker — `execute_script`
wraps every evaluation error (in particular the hook's
"Lua execution timed out") with the "Lua execution failed: " prefix. -/
theorem c6_timeout_rendering :
    (∀ err stdout, (executeScriptEval (.error err) stdout).error =
      some ("Lua execution failed: " ++ err)) ∧
    strIsPrefixOf "** Err: Lua execution failed: "
      (renderToolOutput (executeScriptEval (.error luaTimeoutMsg) "")) = true := by
  exact ⟨fun err stdout => rfl, by decide⟩

/-- C7, counterexample: the stdin task stores 0 into the SIGINT counter for
*every* line it reads (cli.rs 59-64: the store precedes the empty-line check),
not only for non-empty lines as the claim states.  After Ctrl-C, an empty input
line, and a second Ctrl-C, the code emits `[Cancel, Cancel]`, while the claimed
reset rule would emit `[Cancel, Exit]`. -/
theorem c7_counterexample :
    cliSignals [.ctrlC, .inputLine "", .ctrlC] = [.cancel, .cancel] ∧
    cliSignalsClaimed [.ctrlC, .inputLine "", .ctrlC] = [.cancel, .exit] ∧
    cliSignals [.ctrlC, .inputLine "", .ctrlC] ≠
      cliSignalsClaimed [.ctrlC, .inputLine "", .ctrlC] := by
  decide

/-- C7, amended: a first Ctrl-C (counter 0) produces `Cancel` and any further
Ctrl-C with counter ≥ 1 produces `Exit` (after which the Ctrl-C task stops);
the counter is reset to zero on *every* input line read, including empty ones;
two consecutive presses with nothing read in between therefore yield
`[Cancel, Exit]`, and the agent's signal handler terminates the loop exactly on
`Exit`. -/
theorem c7_sigint_behavior :
    (∀ st s, (cliStep st (.inputLine s)).1.sigintCnt = 0) ∧
    (∀ st : CliState, st.ctrlTaskStopped = false → st.sigintCnt = 0 →
      cliStep st .ctrlC = ({ sigintCnt := 1, ctrlTaskStopped := false }, [.cancel])) ∧
    (∀ st : CliState, st.ctrlTaskStopped = false → 1 ≤ st.sigintCnt →
      (cliStep st .ctrlC).2 = [.exit] ∧ (cliStep st .ctrlC).1.ctrlTaskStopped = true) ∧
    cliSignals [.ctrlC, .ctrlC] = [.cancel, .exit] ∧
    handleSignalBreaks .exit = true ∧ handleSignalBreaks .cancel = false := by
  refine ⟨fun st s => rfl, ?_, ?_, by decide, rfl, rfl⟩
  · intro st hstop hcnt
    simp [cliStep, hstop, hcnt]
  · intro st hstop hcnt
    have h2 : 2 ≤ st.sigintCnt + 1 := by omega
    simp [cliStep, hstop, h2]

/-- C7, witness for the amended theorem at a concrete state. -/
theorem c7_sigint_behavior_witness :
    cliStep initialCliState .ctrlC =
      ({ sigintCnt := 1, ctrlTaskStopped := false }, [.cancel]) :=
  c7_sigint_behavior.2.1 initialCliState rfl rfl

/-- C10: with an empty pending set the approval parser consumes nothing — it
returns no decision and emits no output (agent.rs 326-329 returns before the
"not recognized" message) — and `handle_input` therefore forwards any text line
(including pure approval vocabulary such as "y") unchanged to the LLM when the
status is `Idle` (agent.rs 224-241). -/
theorem c10_no_pending_forwards_text (line : String) :
    parseLuaApproval [] line = (none, []) ∧
    handleTextInput .idle [] line = (.sendUser line, []) := by
  have hparse : parseLuaApproval [] line = (none, []) := by
    unfold parseLuaApproval
    split
    · rfl
    · rw [if_pos rfl]
  refine ⟨hparse, ?_⟩
  unfold handleTextInput
  rw [hparse]
  rfl

/-- C8, counterexample: the claim includes "reset-vm" among the recognized
names, but `CMD_NAMES` (msg.rs 15-31) contains only "resetvm"; decoding the
canonical line "/reset-vm" therefore yields `Input::Text`, not
`Input::Command`, so the round-trip fails for the reset command. -/
theorem c8_counterexample :
    inputFromRaw (renderCommand .resetVM) = .text "/reset-vm" ∧
    Input.text "/reset-vm" ≠ .command .resetVM "" "" := by
  decide

/-- C8, amended: for every command whose canonical spec name is in `CMD_NAMES`
(all except `reset-vm`), decoding the canonical `/<name>` line yields the
command with empty arg and details; the same holds, case-insensitively, for
every name and synonym actually in `CMD_NAMES` (exit/quit/q, cancel/c/stop,
help, status, resetvm, compact, approve/a, reject/r, always).  Only the spelling
"resetvm" — not "reset-vm" — is recognized. -/
theorem c8_command_roundtrip :
    (∀ cmd : Command, cmd ≠ .resetVM →
      inputFromRaw (renderCommand cmd) = .command cmd "" "") ∧
    (∀ p ∈ cmdNames,
      inputFromRaw ("/" ++ p.1) = .command p.2 "" "" ∧
      inputFromRaw (strToUpper ("/" ++ p.1)) = .command p.2 "" "") := by
  constructor
  · intro cmd h
    cases cmd
    case resetVM => exact absurd rfl h
    all_goals decide
  · decide

/-- C8, witness for the amended theorem at a concrete command. -/
theorem c8_command_roundtrip_witness :
    inputFromRaw (renderCommand .exit) = .command .exit "" "" :=
  c8_command_roundtrip.1 .exit (by decide)

/-- C9, counterexample: the claim states that `id`, kind, and function name and
arguments are all incrementally concatenated across fragments; in
`chat_completion_streaming` (openai.rs 404-421) only `arguments` is appended
to, while `id`, kind and name are *replaced* by the latest fragment.  Two
fragments carrying ids "ab" then "cd" for index 0 leave the accumulated id
"cd", where the claimed concatenation would give "abcd". -/
theorem c9_counterexample :
    accumulateToolCalls
        [⟨0, some "ab", none, none⟩, ⟨0, some "cd", none, none⟩] =
      [{ id := "cd", kind := "", function := { name := "", arguments := "" } }] ∧
    accumulateToolCallsClaimed
        [⟨0, some "ab", none, none⟩, ⟨0, some "cd", none, none⟩] =
      [{ id := "abcd", kind := "", function := { name := "", arguments := "" } }] ∧
    accumulateToolCalls
        [⟨0, some "ab", none, none⟩, ⟨0, some "cd", none, none⟩] ≠
      accumulateToolCallsClaimed
        [⟨0, some "ab", none, none⟩, ⟨0, some "cd", none, none⟩] := by
  decide

/-- C9, amended: fragments are accumulated in a vector keyed by the fragment's
index (grown with empty calls as needed); the function `arguments` string is
incrementally concatenated, while `id`, kind and function name are replaced by
the latest fragment carrying them; after the stream terminator each completed
call whose arguments contain a `"code"` field is delivered exactly once to the
handler as `(id, code, timeout_sec)`. -/
theorem c9_stream_reassembly :
    (∀ c d, (applyDeltaToCall c d).id = d.id.getD c.id ∧
      (applyDeltaToCall c d).kind = d.kind.getD c.kind ∧
      (applyDeltaToCall c d).function.name =
        (d.function.bind (·.name)).getD c.function.name ∧
      (applyDeltaToCall c d).function.arguments =
        c.function.arguments ++ ((d.function.bind (·.arguments)).getD "")) ∧
    (∀ calls (d : OpenAIToolCallDelta),
      (accumulateDelta calls d).length = max calls.length (d.index + 1)) ∧
    (∀ getCode getTimeout (calls : List OpenAIToolCall),
      (finalizeToolCalls getCode getTimeout calls).length =
        calls.countP (fun c => (getCode c.function.arguments).isSome)) ∧
    (∀ getCode getTimeout (calls : List OpenAIToolCall) c, c ∈ calls →
      ∀ code, getCode c.function.arguments = some code →
      (c.id, code, getTimeout c.function.arguments) ∈
        finalizeToolCalls getCode getTimeout calls) := by
  refine ⟨?_, ?_, ?_, ?_⟩
  · intro c d
    obtain ⟨idx, di, dk, df⟩ := d
    obtain _ | ⟨fn, fa⟩ := df
    · cases di <;> cases dk <;> simp [applyDeltaToCall, strAppendEmpty]
    · cases di <;> cases dk <;> cases fn <;> cases fa <;>
        simp [applyDeltaToCall, strAppendEmpty]
  · intro calls d
    unfold accumulateDelta padCalls
    rw [List.length_set, List.length_append, List.length_replicate]
    omega
  · intro getCode getTimeout calls
    unfold finalizeToolCalls
    rw [filterMapLengthCountP]
    congr 1
    funext c
    cases getCode c.function.arguments <;> rfl
  · intro getCode getTimeout calls c hc code hcode
    unfold finalizeToolCalls
    exact List.mem_filterMap.mpr ⟨c, hc, by rw [hcode]; rfl⟩

/-- C9, witness for the amended theorem at a concrete fragment. -/
theorem c9_stream_reassembly_witness :
    (("t1", "x=1", (none : Option Nat)) ∈
      finalizeToolCalls (fun _ => some "x=1") (fun _ => none)
        [{ id := "t1", kind := "function",
           function := { name := "lua", arguments := "{}" } }]) :=
  c9_stream_reassembly.2.2.2 (fun _ => some "x=1") (fun _ => none)
    [{ id := "t1", kind := "function",
       function := { name := "lua", arguments := "{}" } }]
    { id := "t1", kind := "function",
      function := { name := "lua", arguments := "{}" } }
    (by decide) "x=1" rfl

/-- C1, counterexample: a tool call delivered with `timeout_sec = Some 7` is
recorded without its timeout (`PendingLua` has no timeout field, agent.rs
11-15) and, once approved, `finish_lua_batch` invokes the runtime with the
recorded code and a `None` timeout (agent.rs 417) — not with the entry's
recorded timeout as the claim states. -/
theorem c1_counterexample :
    (finishLuaBatch stubRuntime
        ((applyLuaApproval ["t1"]
            (onLuaCallToolCall [] ⟨"t1", "x=1", some 7⟩) true .all).2.getD [])).1 =
      [("x=1", (none : Option Nat))] ∧
    [("x=1", (none : Option Nat))] ≠ [("x=1", some 7)] := by
  decide

/-- C1, amended: for every entry of a completed batch, `finish_lua_batch`
invokes the runtime exactly once with that entry's recorded code and a `None`
timeout (the tool call's timeout is never recorded nor forwarded) iff its
decision is approved; every rejected (or undecided) entry produces no
invocation and the fixed output "Lua execution rejected by user.". -/
theorem c1_batch_execution (runtime : String → Option Nat → LuaExecution)
    (pending : List PendingLua) :
    (finishLuaBatch runtime pending).1 =
      (pending.filter (fun e => e.approved == some true)).map
        (fun e => (e.code, (none : Option Nat))) ∧
    (finishLuaBatch runtime pending).2.1 =
      pending.map (fun e => (e.id, finishOutput runtime e)) ∧
    (∀ e ∈ pending, e.approved ≠ some true → finishOutput runtime e = rejectedMsg) := by
  rw [finishLuaBatchEq]
  refine ⟨rfl, rfl, ?_⟩
  intro e _ hne
  have hfalse : (e.approved == some true) = false := beq_eq_false_iff_ne.mpr hne
  simp [finishOutput, hfalse]

/-- C1, witness for the amended theorem at a concrete rejected entry. -/
theorem c1_batch_execution_witness :
    finishOutput stubRuntime ⟨"t1", "x=1", some false⟩ = rejectedMsg :=
  (c1_batch_execution stubRuntime [⟨"t1", "x=1", some false⟩]).2.2
    ⟨"t1", "x=1", some false⟩ (by decide) (by decide)

/-- C2, counterexample: spec scenario S4 — with `t1`, `t2` pending, `approve
t2` decides `t2` only (no batch yet); the subsequent reject-all `n` then
*overwrites* `t2`'s decision (agent.rs 376-378 sets every entry, decided or
not), so the emitted batch carries `t2` rejected, not approved as claimed. -/
theorem c2_counterexample :
    (parseLuaApproval (s4WaitList.map (·.id)) "approve t2").1 =
      some (true, .one "t2") ∧
    (applyLuaApproval ["t1", "t2"] s4WaitList true (.one "t2")).2 = none ∧
    (parseLuaApproval
        ((applyLuaApproval ["t1", "t2"] s4WaitList true (.one "t2")).1.map (·.id))
        "n").1 = some (false, .all) ∧
    ((applyLuaApproval ["t1", "t2"]
        (applyLuaApproval ["t1", "t2"] s4WaitList true (.one "t2")).1
        false .all).2.getD []).find? (·.id == "t2") =
      some ⟨"t2", "c2", some false⟩ ∧
    some (⟨"t2", "c2", some false⟩ : PendingLua) ≠ some ⟨"t2", "c2", some true⟩ := by
  decide

/-- C2, amended: decisions are *not* final — a decide-all overwrites every
pending entry's decision, including entries already decided: after a decide-all
with decision `d`, every entry remaining in the wait list and every entry of an
emitted batch carries decision `d` regardless of earlier decisions (so
approving `t2` and then rejecting all yields a batch with `t2` rejected). -/
theorem c2_decide_all_overwrites (hashOrder : List String) (wl : List PendingLua)
    (d : Bool) :
    (∀ e ∈ (applyLuaApproval hashOrder wl d .all).1, e.approved = some d) ∧
    (∀ b, (applyLuaApproval hashOrder wl d .all).2 = some b →
      ∀ e ∈ b, e.approved = some d) := by
  rw [applyAllEq]
  by_cases hall : allDecided (decideAll wl d) = true
  · rw [if_pos hall]
    refine ⟨fun e he => absurd he (List.not_mem_nil e), ?_⟩
    intro b hb e he
    simp only [Option.some.injEq] at hb
    rw [← hb] at he
    unfold drainBatch at he
    obtain ⟨k, _, hfind⟩ := List.mem_filterMap.mp he
    exact decideAllApproved wl d e (List.mem_of_find?_eq_some hfind)
  · rw [if_neg hall]
    exact ⟨fun e he => decideAllApproved wl d e he, fun b hb => by simp at hb⟩

/-- C2, witness for the amended theorem at a concrete batch entry. -/
theorem c2_decide_all_overwrites_witness :
    (⟨"t2", "c2", some false⟩ : PendingLua).approved = some false :=
  (c2_decide_all_overwrites ["t1", "t2"] s4WaitList false).2
    [⟨"t1", "c1", some false⟩, ⟨"t2", "c2", some false⟩] (by decide)
    ⟨"t2", "c2", some false⟩ (by decide)

/-- C3, counterexample: the wait list is a `HashMap` whose `drain()` order is
unspecified; `["t2","t1"]` is an admissible drain order (a permutation of the
key set) under which the batch for the insertion sequence `t1`, `t2` lists
`t2` before `t1` — not the insertion order, contradicting the claim. -/
theorem c3_counterexample :
    ["t2", "t1"].Perm (s4WaitList.map (·.id)) ∧
    (applyLuaApproval ["t2", "t1"] s4WaitList true .all).2 =
      some [⟨"t2", "c2", some true⟩, ⟨"t1", "c1", some true⟩] ∧
    decideAll s4WaitList true =
      [⟨"t1", "c1", some true⟩, ⟨"t2", "c2", some true⟩] ∧
    some [(⟨"t2", "c2", some true⟩ : PendingLua), ⟨"t1", "c1", some true⟩] ≠
      some [⟨"t1", "c1", some true⟩, ⟨"t2", "c2", some true⟩] := by
  decide

/-- C3, amended: once all entries are decided, the batch submitted after a
decide-all is the wait list drained in the `HashMap`'s (arbitrary) iteration
order: for every drain order that is a permutation of the key set, the batch is
a permutation of the decided entries — but no particular order (in particular
not insertion order) is guaranteed. -/
theorem c3_batch_permutation (hashOrder : List String) (wl : List PendingLua)
    (d : Bool) (hnd : (wl.map (·.id)).Nodup)
    (hperm : hashOrder.Perm (wl.map (·.id))) (hne : wl ≠ []) :
    (applyLuaApproval hashOrder wl d .all).2 =
      some (drainBatch hashOrder (decideAll wl d)) ∧
    (drainBatch hashOrder (decideAll wl d)).Perm (decideAll wl d) := by
  constructor
  · rw [applyAllEq, if_pos (allDecidedDecideAll wl d hne)]
  · apply drainBatchPerm
    · rw [mapIdDecideAll]
      exact hnd
    · rw [mapIdDecideAll]
      exact hperm

/-- C3, witness for the amended theorem at a concrete drain order. -/
theorem c3_batch_permutation_witness :
    (applyLuaApproval ["t2", "t1"] s4WaitList true .all).2 =
      some (drainBatch ["t2", "t1"] (decideAll s4WaitList true)) ∧
    (drainBatch ["t2", "t1"] (decideAll s4WaitList true)).Perm
      (decideAll s4WaitList true) :=
  c3_batch_permutation ["t2", "t1"] s4WaitList true (by decide) (by decide)
    (by decide)

/-- C4: with a non-empty pending set, the approval parser recognizes exactly
the grammar of spec §4.6.1 — at token level `parse_lua_approval` agrees with
the spec grammar on every token sequence, and at string level (input split on
whitespace) the parsed decision agrees with the grammar applied to the token
list of the trimmed input. -/
theorem c4_approval_grammar (ids : List String) (h : ids ≠ []) :
    (∀ tokens, parseLuaApprovalTokens ids tokens = approvalGrammarSpec ids tokens) ∧
    (∀ input, (parseLuaApproval ids input).1 =
      approvalGrammarSpec ids (splitWhitespaceTokens (strTrim input))) := by
  have htok : ∀ tokens,
      parseLuaApprovalTokens ids tokens = approvalGrammarSpec ids tokens := by
    intro tokens
    cases tokens with
    | nil => simp [parseLuaApprovalTokens, approvalGrammarSpec, if_neg h]
    | cons t0 ts =>
      cases ts with
      | nil =>
        simp only [parseLuaApprovalTokens, approvalGrammarSpec, if_neg h]
        rw [parseDecisionEqDecisionOf]
        cases decisionOf t0 with
        | some d => rfl
        | none =>
          rw [listAnyBeqMem]
          by_cases hm : t0 ∈ ids <;> simp [hm]
      | cons t1 rest =>
        simp only [parseLuaApprovalTokens, approvalGrammarSpec, if_neg h]
        rw [approvalPairBranchEq, approvalPairBranchEq]
  refine ⟨htok, ?_⟩
  intro input
  unfold parseLuaApproval
  by_cases ht : strTrim input = ""
  · rw [if_pos ht, ht]
    rfl
  · rw [if_neg ht, if_neg h]
    by_cases htoks : splitWhitespaceTokens (strTrim input) = []
    · rw [if_pos htoks, htoks]
      rfl
    · rw [if_neg htoks, ← htok]
      cases hp : parseLuaApprovalTokens ids (splitWhitespaceTokens (strTrim input)) <;>
        simp [hp]

/-- C4, witness at a concrete pending set and utterance. -/
theorem c4_approval_grammar_witness :
    parseLuaApprovalTokens ["t1"] ["y"] = approvalGrammarSpec ["t1"] ["y"] :=
  (c4_approval_grammar ["t1"] (by decide)).1 ["y"]

end Onui
